import Mathlib

/-!
# Verification of `FSM.h` — a generic finite state machine

Shallow embedding of the C++ template class
`template<class State, State Initial, class Trigger> class FSM`.

Modelling decisions, in correspondence with the source:

* `Trans` mirrors `struct Trans` (origin state, destination state, trigger,
  action).  The C++ action is a `std::function<void()>` which may be empty;
  we model it as `Option Action` where `Action` is an opaque identifier of
  the callback: `none` is the empty `std::function` (for which
  `if (transition.m_action)` is false), `some a` a non-empty one.

* The C++ member `std::map<State, std::vector<Trans>> m_transitions` groups
  transitions by origin; `AddTransitions` appends each incoming transition
  to its origin's vector in input order.  We represent the table as the flat
  list of all registered transitions in registration order; the vector that
  `m_transitions[s]` holds is recovered by `transitionsFor`, the filter of
  that list by origin `s`.  This reproduces the map exactly: per-origin
  order equals registration order, and `m_transitions.find(s) == end()`
  (state never registered as an origin) iff the filtered list is empty —
  and an empty vector and an absent entry make `Execute` behave
  identically (return `false`, touch nothing).

* Side effects are made observable through an explicit event trace:
  `Event.invoke a` records a call of action callback `a`, and
  `Event.setState s` records an assignment `m_currentState = s`.  Mutating
  operations return their trace next to the updated machine.

* The template parameter `Initial` is passed as an explicit argument to the
  operations that read it (`mkEmpty`, `IsInitial`), since Lean has no
  value-level type parameters bound at the class level in this embedding.

* The default constructor `FSM()` initialises `m_currentState(Initial)`.
  The collection constructors (`FSM(const std::vector<Trans>&)`,
  `FSM(std::initializer_list<Trans>)`, `FSM(const std::array<Trans,N>&)`)
  only call `AddTransitions` and never initialise the scalar member
  `m_currentState`, which is therefore indeterminate.  `mkFromCollection`
  models this faithfully by taking the indeterminate value as an explicit
  parameter `junk`.
-/

/-- `struct Trans` of `FSM.h`: origin state, destination state, trigger and
an optional action callback (`none` models an empty `std::function`). -/
structure FSM.Trans (State Trigger Action : Type) where
  m_originState : State
  m_destinationState : State
  m_trigger : Trigger
  m_action : Option Action
deriving DecidableEq, Repr

/-- Observable side effects of the FSM operations: invocation of an action
callback, or an assignment to `m_currentState`. -/
inductive Event (State Action : Type) where
  | invoke (a : Action)
  | setState (s : State)
deriving DecidableEq, Repr

/-- `true` exactly on `Event.invoke` events. -/
def Event.isInvoke {State Action : Type} : Event State Action → Bool
  | .invoke _ => true
  | .setState _ => false

/-- `true` exactly on `Event.setState` events. -/
def Event.isSetState {State Action : Type} : Event State Action → Bool
  | .invoke _ => false
  | .setState _ => true

/-- The state of an `FSM` object: the current state `m_currentState` and the
transition table `m_transitions`, kept as the flat registration-ordered
list of transitions (see the module comment). -/
structure FSM (State Trigger Action : Type) where
  m_currentState : State
  m_transitions : List (FSM.Trans State Trigger Action)
deriving DecidableEq, Repr

namespace FSM

variable {State Trigger Action : Type}

/-- The default constructor `FSM()`:
`m_currentState(Initial), m_transitions()`. -/
def mkEmpty (initial : State) : FSM State Trigger Action :=
  { m_currentState := initial, m_transitions := [] }

/-- `AddTransitions`: append every transition of the collection to its
origin state's vector, in input order (`m_transitions[c.m_originState]
.emplace_back(c)`).  In the flat-list representation this is appending the
collection to the registration list.  No action is invoked and
`m_currentState` is not assigned, so the event trace is empty. -/
def AddTransitions (m : FSM State Trigger Action)
    (xi_collection : List (FSM.Trans State Trigger Action)) :
    FSM State Trigger Action × List (Event State Action) :=
  ({ m with m_transitions := m.m_transitions ++ xi_collection }, [])

/-- The collection constructors (`std::vector`, `std::initializer_list`,
`std::array`): they call `AddTransitions(xi_transitions)` but never
initialise the scalar member `m_currentState`, which therefore holds an
indeterminate value, modelled by the explicit parameter `junk`. -/
def mkFromCollection (junk : State)
    (xi_transitions : List (FSM.Trans State Trigger Action)) :
    FSM State Trigger Action :=
  (({ m_currentState := junk, m_transitions := [] } :
      FSM State Trigger Action).AddTransitions xi_transitions).1

/-- `GetState() const { return m_currentState; }` -/
def GetState (m : FSM State Trigger Action) : State :=
  m.m_currentState

/-- `SetState(xi_state) { m_currentState = xi_state; }` — an unconditional
assignment; the trace records it and contains no invocation. -/
def SetState (m : FSM State Trigger Action) (xi_state : State) :
    FSM State Trigger Action × List (Event State Action) :=
  ({ m with m_currentState := xi_state }, [Event.setState xi_state])

/-- `IsInitial() const { return (m_currentState == Initial); }` -/
def IsInitial [DecidableEq State] (m : FSM State Trigger Action)
    (initial : State) : Bool :=
  m.m_currentState = initial

/-- The vector `m_transitions[s]`: all registered transitions whose origin
is `s`, in registration order. -/
def transitionsFor [DecidableEq State] (m : FSM State Trigger Action)
    (s : State) : List (FSM.Trans State Trigger Action) :=
  m.m_transitions.filter (fun t => t.m_originState = s)

end FSM

/-- The events produced by firing transition `t` — the body of the match in
`Execute` (lines 123–127 of `FSM.h`): `if (transition.m_action)
transition.m_action();` followed by `m_currentState =
transition.m_destinationState;`. -/
def FSM.Trans.fireEvents {State Trigger Action : Type}
    (t : FSM.Trans State Trigger Action) : List (Event State Action) :=
  (match t.m_action with
    | some a => [Event.invoke a]
    | none => []) ++ [Event.setState t.m_destinationState]

/-- The loop of `Execute` over `state_transitions->second`: skip transitions
whose trigger differs from `xi_trigger`; at the first match, invoke the
action if present, assign the destination to `m_currentState`, and return
`true`.  Falling off the end returns `false` with no effect.  The result is
(return value, final current state, event trace). -/
def executeLoop {State Trigger Action : Type} [DecidableEq Trigger]
    (xi_trigger : Trigger) (cur : State) :
    List (FSM.Trans State Trigger Action) →
      Bool × State × List (Event State Action)
  | [] => (false, cur, [])
  | transition :: rest =>
    if xi_trigger = transition.m_trigger then
      (true, transition.m_destinationState, transition.fireEvents)
    else
      executeLoop xi_trigger cur rest

namespace FSM

variable {State Trigger Action : Type}

/-- `Execute(xi_trigger)`: look up the current state's transitions
(`m_transitions.find(m_currentState)`; absent entry means no transitions,
i.e. an empty `transitionsFor` list, and `Execute` returns `false`), then
run the first-match loop.  Returns the boolean result, the updated machine
and the event trace. -/
def Execute [DecidableEq State] [DecidableEq Trigger]
    (m : FSM State Trigger Action) (xi_trigger : Trigger) :
    Bool × FSM State Trigger Action × List (Event State Action) :=
  let r := executeLoop xi_trigger m.m_currentState
    (m.transitionsFor m.m_currentState)
  (r.1, { m with m_currentState := r.2.1 }, r.2.2)

/-- `s` is referenced by at least one registered transition of `m`
(as origin or destination). -/
def References (m : FSM State Trigger Action) (s : State) : Prop :=
  ∃ t ∈ m.m_transitions, t.m_originState = s ∨ t.m_destinationState = s

instance [DecidableEq State] (m : FSM State Trigger Action) (s : State) :
    Decidable (m.References s) := by
  unfold References; infer_instance

end FSM

/-- A client-visible mutating operation on an `FSM` object. -/
inductive Op (State Trigger Action : Type) where
  | addTransitions (ts : List (FSM.Trans State Trigger Action))
  | execute (trig : Trigger)
  | setState (s : State)
deriving DecidableEq

namespace FSM

variable {State Trigger Action : Type}

/-- Apply one operation to the machine, discarding return value and trace. -/
def runOp [DecidableEq State] [DecidableEq Trigger]
    (m : FSM State Trigger Action) : Op State Trigger Action →
    FSM State Trigger Action
  | .addTransitions ts => (m.AddTransitions ts).1
  | .execute trig => (m.Execute trig).2.1
  | .setState s => (m.SetState s).1

/-- Apply a sequence of operations from left to right. -/
def run [DecidableEq State] [DecidableEq Trigger]
    (m : FSM State Trigger Action) (ops : List (Op State Trigger Action)) :
    FSM State Trigger Action :=
  ops.foldl runOp m

end FSM

/-- The transitions of the worked example in the header comment of `FSM.h`
(lines 22–23), encoded with states `A = 0`, `B = 1`, `C = 2`, triggers
`a = 0`, `b = 1`, and the two printing lambdas as action identifiers `0`
and `1`. -/
def exampleTransitions : List (FSM.Trans Nat Nat Nat) :=
  [{ m_originState := 0, m_destinationState := 1, m_trigger := 0,
     m_action := some 0 },
   { m_originState := 1, m_destinationState := 2, m_trigger := 1,
     m_action := some 1 }]

/-! ## Helper lemmas about the `Execute` loop -/

section Lemmas

variable {State Trigger Action : Type} [DecidableEq Trigger]

/-- If no transition in the list carries the trigger, the loop falls off the
end: `false`, current state untouched, no events. -/
lemma executeLoop_of_no_match (trig : Trigger) (cur : State)
    (l : List (FSM.Trans State Trigger Action))
    (h : ∀ t ∈ l, t.m_trigger ≠ trig) :
    executeLoop trig cur l = (false, cur, []) := by
  induction l with
  | nil => rfl
  | cons t rest ih =>
    have ht : trig ≠ t.m_trigger := (h t (List.mem_cons_self t rest)).symm
    simp only [executeLoop, if_neg ht]
    exact ih (fun u hu => h u (List.mem_cons_of_mem t hu))

/-- The loop fires the first transition carrying the trigger. -/
lemma executeLoop_first_match (trig : Trigger) (cur : State)
    (l₁ l₂ : List (FSM.Trans State Trigger Action))
    (t : FSM.Trans State Trigger Action)
    (h₁ : ∀ u ∈ l₁, u.m_trigger ≠ trig) (h₂ : t.m_trigger = trig) :
    executeLoop trig cur (l₁ ++ t :: l₂) =
      (true, t.m_destinationState, t.fireEvents) := by
  induction l₁ with
  | nil => simp only [List.nil_append, executeLoop, if_pos h₂.symm]
  | cons u rest ih =>
    have hu : trig ≠ u.m_trigger := (h₁ u (List.mem_cons_self u rest)).symm
    simp only [List.cons_append, executeLoop, if_neg hu]
    exact ih (fun v hv => h₁ v (List.mem_cons_of_mem u hv))

/-- If the loop reports `false`, nothing happened at all. -/
lemma executeLoop_false (trig : Trigger) (cur : State)
    (l : List (FSM.Trans State Trigger Action))
    (h : (executeLoop trig cur l).1 = false) :
    executeLoop trig cur l = (false, cur, []) := by
  induction l with
  | nil => rfl
  | cons t rest ih =>
    by_cases hm : trig = t.m_trigger
    · simp only [executeLoop, if_pos hm] at h
      exact Bool.noConfusion h
    · simp only [executeLoop, if_neg hm] at h ⊢
      exact ih h

/-- If the loop reports `true`, some listed transition carries the trigger
and the final state is its destination. -/
lemma executeLoop_true (trig : Trigger) (cur : State)
    (l : List (FSM.Trans State Trigger Action))
    (h : (executeLoop trig cur l).1 = true) :
    ∃ t ∈ l, t.m_trigger = trig ∧
      (executeLoop trig cur l).2.1 = t.m_destinationState := by
  induction l with
  | nil => exact absurd h (by simp [executeLoop])
  | cons t rest ih =>
    by_cases hm : trig = t.m_trigger
    · refine ⟨t, List.mem_cons_self t rest, hm.symm, ?_⟩
      simp only [executeLoop, if_pos hm]
    · simp only [executeLoop, if_neg hm] at h ⊢
      obtain ⟨u, hu, hut, hus⟩ := ih h
      exact ⟨u, List.mem_cons_of_mem t hu, hut, hus⟩

/-- The loop result of `true` is equivalent to some listed transition
carrying the trigger. -/
lemma executeLoop_true_iff (trig : Trigger) (cur : State)
    (l : List (FSM.Trans State Trigger Action)) :
    (executeLoop trig cur l).1 = true ↔ ∃ t ∈ l, t.m_trigger = trig := by
  induction l with
  | nil => simp [executeLoop]
  | cons t rest ih =>
    by_cases hm : trig = t.m_trigger
    · refine ⟨fun _ => ⟨t, List.mem_cons_self t rest, hm.symm⟩, fun _ => ?_⟩
      simp [executeLoop, if_pos hm]
    · simp only [executeLoop, if_neg hm]
      rw [ih]
      constructor
      · rintro ⟨u, hu, hut⟩
        exact ⟨u, List.mem_cons_of_mem t hu, hut⟩
      · rintro ⟨u, hu, hut⟩
        rcases List.mem_cons.mp hu with rfl | hu
        · exact absurd hut.symm hm
        · exact ⟨u, hu, hut⟩

end Lemmas

section MoreLemmas

variable {State Trigger Action : Type} [DecidableEq State] [DecidableEq Trigger]

/-- A fired transition's trace holds exactly one state assignment and at
most one invocation. -/
lemma fireEvents_counts (t : FSM.Trans State Trigger Action) :
    (t.fireEvents.filter Event.isSetState).length = 1 ∧
    (t.fireEvents.filter Event.isInvoke).length ≤ 1 := by
  cases h : t.m_action <;>
    simp [FSM.Trans.fireEvents, h, Event.isSetState, Event.isInvoke]

/-- Per loop run, at most one state assignment and at most one invocation
are ever emitted: at most one transition fires. -/
lemma executeLoop_counts (trig : Trigger) (cur : State)
    (l : List (FSM.Trans State Trigger Action)) :
    ((executeLoop trig cur l).2.2.filter Event.isSetState).length ≤ 1 ∧
    ((executeLoop trig cur l).2.2.filter Event.isInvoke).length ≤ 1 := by
  induction l with
  | nil => simp [executeLoop]
  | cons t rest ih =>
    by_cases hm : trig = t.m_trigger
    · simp only [executeLoop, if_pos hm]
      exact ⟨(fireEvents_counts t).1.le, (fireEvents_counts t).2⟩
    · simp only [executeLoop, if_neg hm]
      exact ih

/-- The loop reports `true` exactly when its trace holds a state
assignment. -/
lemma executeLoop_setState_iff (trig : Trigger) (cur : State)
    (l : List (FSM.Trans State Trigger Action)) :
    (executeLoop trig cur l).1 = true ↔
      ∃ e ∈ (executeLoop trig cur l).2.2, e.isSetState = true := by
  induction l with
  | nil => simp [executeLoop]
  | cons t rest ih =>
    by_cases hm : trig = t.m_trigger
    · constructor
      · intro _
        refine ⟨Event.setState t.m_destinationState, ?_, rfl⟩
        simp only [executeLoop, if_pos hm]
        cases h : t.m_action <;> simp [FSM.Trans.fireEvents, h]
      · intro _
        simp [executeLoop, if_pos hm]
    · simp only [executeLoop, if_neg hm]
      exact ih

/-- Skipping the non-matching transitions first is the same as running the
loop on the list already filtered down to the matching trigger. -/
lemma executeLoop_filter (trig : Trigger) (cur : State)
    (l : List (FSM.Trans State Trigger Action)) :
    executeLoop trig cur l =
      executeLoop trig cur (l.filter (fun t => t.m_trigger = trig)) := by
  induction l with
  | nil => rfl
  | cons t rest ih =>
    cases hd : decide (t.m_trigger = trig) with
    | true =>
      have hm : trig = t.m_trigger := (of_decide_eq_true hd).symm
      simp [List.filter_cons, hd, executeLoop, if_pos hm]
    | false =>
      have hm : ¬(trig = t.m_trigger) := fun e => of_decide_eq_false hd e.symm
      simp only [List.filter_cons, hd, Bool.false_eq_true, if_false]
      simp only [executeLoop, if_neg hm]
      exact ih

/-- `Execute` leaves the transition table untouched. -/
lemma Execute_table (m : FSM State Trigger Action) (trig : Trigger) :
    (m.Execute trig).2.1.m_transitions = m.m_transitions := rfl

/-- An `Execute` returning `false` leaves the machine exactly as it was and
emits no event. -/
lemma Execute_false_frame (m : FSM State Trigger Action) (trig : Trigger)
    (h : (m.Execute trig).1 = false) :
    m.Execute trig = (false, m, []) := by
  have h' := executeLoop_false trig m.m_currentState
    (m.transitionsFor m.m_currentState) h
  show (_, { m with m_currentState := _ }, _) =
    (false, m, ([] : List (Event State Action)))
  rw [h']

/-- `Execute` fires the first transition of the current state's vector that
carries the trigger. -/
lemma Execute_first_match (m : FSM State Trigger Action) (trig : Trigger)
    (l₁ l₂ : List (FSM.Trans State Trigger Action))
    (t : FSM.Trans State Trigger Action)
    (h : m.transitionsFor m.m_currentState = l₁ ++ t :: l₂)
    (h₁ : ∀ u ∈ l₁, u.m_trigger ≠ trig) (h₂ : t.m_trigger = trig) :
    m.Execute trig =
      (true, { m with m_currentState := t.m_destinationState },
        t.fireEvents) := by
  show (_, { m with m_currentState := _ }, _) = _
  rw [h, executeLoop_first_match trig m.m_currentState l₁ l₂ t h₁ h₂]

/-- An `Execute` returning `true` moved to the destination of a registered
transition carrying the trigger. -/
lemma Execute_true_dest (m : FSM State Trigger Action) (trig : Trigger)
    (h : (m.Execute trig).1 = true) :
    ∃ t ∈ m.m_transitions, t.m_trigger = trig ∧
      (m.Execute trig).2.1.m_currentState = t.m_destinationState := by
  obtain ⟨t, ht, htt, hts⟩ := executeLoop_true trig m.m_currentState
    (m.transitionsFor m.m_currentState) h
  exact ⟨t, (List.mem_filter.mp ht).1, htt, hts⟩

end MoreLemmas

section RunLemmas

variable {State Trigger Action : Type} [DecidableEq State] [DecidableEq Trigger]

/-- The transition table only ever grows along a run: the table of the
start machine is a sublist of the table after any operation sequence. -/
lemma run_transitions_sublist (ops : List (Op State Trigger Action)) :
    ∀ m : FSM State Trigger Action,
      m.m_transitions.Sublist (FSM.run m ops).m_transitions := by
  induction ops with
  | nil => exact fun m => List.Sublist.refl _
  | cons op ops ih =>
    intro m
    have hstep : m.m_transitions.Sublist (FSM.runOp m op).m_transitions := by
      cases op with
      | addTransitions ts => exact List.sublist_append_left _ _
      | execute trig => exact List.Sublist.refl _
      | setState s => exact List.Sublist.refl _
    exact hstep.trans (ih (FSM.runOp m op))

/-- Where the current state can come from after a run: it is the start
machine's current state, or it is referenced by a transition of the final
table (the destination of a fired transition), or it was installed by a
`SetState` operation of the run. -/
lemma run_state_origin (ops : List (Op State Trigger Action)) :
    ∀ m : FSM State Trigger Action,
      (FSM.run m ops).m_currentState = m.m_currentState ∨
      (FSM.run m ops).References (FSM.run m ops).m_currentState ∨
      Op.setState (FSM.run m ops).m_currentState ∈ ops := by
  induction ops with
  | nil => exact fun m => Or.inl rfl
  | cons op ops ih =>
    intro m
    have hrun : FSM.run m (op :: ops) = FSM.run (FSM.runOp m op) ops := rfl
    rw [hrun]
    rcases ih (FSM.runOp m op) with h | h | h
    · cases op with
      | addTransitions ts => exact Or.inl h
      | setState s =>
        refine Or.inr (Or.inr ?_)
        have hs : (FSM.runOp m (Op.setState s)).m_currentState = s := rfl
        rw [h, hs]
        exact List.mem_cons_self _ _
      | execute trig =>
        cases hb : (m.Execute trig).1 with
        | false =>
          have hm : FSM.runOp m (Op.execute trig) = m := by
            show (m.Execute trig).2.1 = m
            rw [Execute_false_frame m trig hb]
          rw [hm] at h
          rw [hm]
          exact Or.inl h
        | true =>
          obtain ⟨t, ht, _, hdest⟩ := Execute_true_dest m trig hb
          refine Or.inr (Or.inl ?_)
          refine ⟨t, ?_, Or.inr ?_⟩
          · have htab : t ∈ (FSM.runOp m (Op.execute trig)).m_transitions := ht
            exact (run_transitions_sublist ops
              (FSM.runOp m (Op.execute trig))).mem htab
          · rw [h]
            exact hdest.symm
    · exact Or.inr (Or.inl h)
    · exact Or.inr (Or.inr (List.mem_cons_of_mem op h))

end RunLemmas

/-! ## Claim theorems -/

/-- C1: a freshly default-constructed FSM is in the initial state `S0` with
`IsInitial()` true (first conjunct), but an FSM freshly constructed from a
collection of transitions — the header's own example construction — has an
uninitialised `m_currentState`: if the indeterminate value is `1` (state
`B`) while the initial state is `0` (state `A`), `GetState()` is not `S0`
and `IsInitial()` is `false`, contradicting the claim (and the header's
own `assert(fsm.IsInitial())`) for the collection constructors. -/
theorem FSM.constructor_initial_state :
    ((FSM.mkEmpty 0 : FSM Nat Nat Nat).GetState = 0 ∧
      (FSM.mkEmpty 0 : FSM Nat Nat Nat).IsInitial 0 = true) ∧
    ((FSM.mkFromCollection 1 exampleTransitions).GetState = 1 ∧
      (FSM.mkFromCollection 1 exampleTransitions).IsInitial 0 = false) := by
  decide

/-- C2 counterexample: the machine at state `0` whose table contains the
registered transition `{0, 2, 7, action 20}` — yet `Execute 7` neither
moves to `2` nor invokes action `20`, because an earlier registered
transition with the same trigger fires instead.  This refutes the claim as
stated (quantified over any contained transition). -/
theorem FSM.execute_contained_transition_refuted :
    (⟨0, 2, 7, some 20⟩ : FSM.Trans Nat Nat Nat) ∈
      (FSM.mk 0 [⟨0, 1, 7, some 10⟩, ⟨0, 2, 7, some 20⟩] :
        FSM Nat Nat Nat).m_transitions ∧
    (FSM.mk 0 [⟨0, 1, 7, some 10⟩, ⟨0, 2, 7, some 20⟩] :
      FSM Nat Nat Nat).GetState = 0 ∧
    ¬(((FSM.mk 0 [⟨0, 1, 7, some 10⟩, ⟨0, 2, 7, some 20⟩] :
          FSM Nat Nat Nat).Execute 7).2.1.GetState = 2 ∧
      Event.invoke 20 ∈
        ((FSM.mk 0 [⟨0, 1, 7, some 10⟩, ⟨0, 2, 7, some 20⟩] :
          FSM Nat Nat Nat).Execute 7).2.2) := by
  decide

/-- C2 (amended): if the first transition with trigger `trig` in the
current state's registered transition list is `t = {A, B, trig, action a}`
with a non-empty action, then `Execute trig` returns `true`, invokes `a`
exactly once — before the state-update event — and afterwards `GetState()`
returns `B`. -/
theorem FSM.execute_first_matching_transition
    {State Trigger Action : Type} [DecidableEq State] [DecidableEq Trigger]
    (m : FSM State Trigger Action) (trig : Trigger)
    (l₁ l₂ : List (FSM.Trans State Trigger Action))
    (t : FSM.Trans State Trigger Action) (a : Action)
    (h : m.transitionsFor m.m_currentState = l₁ ++ t :: l₂)
    (h₁ : ∀ u ∈ l₁, u.m_trigger ≠ trig) (h₂ : t.m_trigger = trig)
    (h₃ : t.m_action = some a) :
    m.Execute trig =
      (true, { m with m_currentState := t.m_destinationState },
        [Event.invoke a, Event.setState t.m_destinationState]) ∧
    (m.Execute trig).2.1.GetState = t.m_destinationState := by
  have he := Execute_first_match m trig l₁ l₂ t h h₁ h₂
  have hfire : t.fireEvents =
      [Event.invoke a, Event.setState t.m_destinationState] := by
    simp [FSM.Trans.fireEvents, h₃]
  rw [he, hfire]
  exact ⟨rfl, rfl⟩

/-- C2 witness: concrete application of the amended theorem. -/
theorem FSM.execute_first_matching_transition_witness :
    (FSM.mk 0 [⟨0, 1, 7, some 10⟩, ⟨0, 2, 7, some 20⟩] :
        FSM Nat Nat Nat).Execute 7 =
      (true, FSM.mk 1 [⟨0, 1, 7, some 10⟩, ⟨0, 2, 7, some 20⟩],
        [Event.invoke 10, Event.setState 1]) ∧
    ((FSM.mk 0 [⟨0, 1, 7, some 10⟩, ⟨0, 2, 7, some 20⟩] :
        FSM Nat Nat Nat).Execute 7).2.1.GetState = 1 :=
  FSM.execute_first_matching_transition
    (FSM.mk 0 [⟨0, 1, 7, some 10⟩, ⟨0, 2, 7, some 20⟩]) 7
    [] [⟨0, 2, 7, some 20⟩] ⟨0, 1, 7, some 10⟩ 10
    (by decide) (by decide) (by decide) (by decide)

/-- C3: if no transition registered for the current state carries the
trigger — in particular if the current state has no outgoing transitions
at all — `Execute` returns `false`, the machine is left exactly as it was,
and no action is invoked (empty event trace). -/
theorem FSM.execute_no_match
    {State Trigger Action : Type} [DecidableEq State] [DecidableEq Trigger]
    (m : FSM State Trigger Action) (trig : Trigger)
    (h : ∀ t ∈ m.transitionsFor m.m_currentState, t.m_trigger ≠ trig) :
    m.Execute trig = (false, m, []) := by
  have h' := executeLoop_of_no_match trig m.m_currentState
    (m.transitionsFor m.m_currentState) h
  show (_, { m with m_currentState := _ }, _) =
    (false, m, ([] : List (Event State Action)))
  rw [h']

/-- C3 witness: trigger `5` matches nothing from state `0`. -/
theorem FSM.execute_no_match_witness :
    (FSM.mk 0 exampleTransitions : FSM Nat Nat Nat).Execute 5 =
      (false, FSM.mk 0 exampleTransitions, []) :=
  FSM.execute_no_match (FSM.mk 0 exampleTransitions) 5 (by decide)

/-- C4: when the transitions registered for the current state that carry
trigger `trig` are, in registration order, `T1` then `T2`, `Execute trig`
always fires `T1` — it returns `true`, invokes exactly `T1`'s action
events, and moves to `T1`'s destination, so `T2` never fires.  Moreover
(second conjunct) no single `Execute` invocation ever fires more than one
transition: every trace holds at most one state assignment and at most one
action invocation. -/
theorem FSM.execute_deterministic_first_match
    {State Trigger Action : Type} [DecidableEq State] [DecidableEq Trigger]
    (m : FSM State Trigger Action) (trig : Trigger)
    (T1 T2 : FSM.Trans State Trigger Action)
    (h : (m.transitionsFor m.m_currentState).filter
        (fun t => t.m_trigger = trig) = [T1, T2]) :
    m.Execute trig =
      (true, { m with m_currentState := T1.m_destinationState },
        T1.fireEvents) ∧
    ∀ (m₂ : FSM State Trigger Action) (trig₂ : Trigger),
      ((m₂.Execute trig₂).2.2.filter Event.isSetState).length ≤ 1 ∧
      ((m₂.Execute trig₂).2.2.filter Event.isInvoke).length ≤ 1 := by
  constructor
  · have hT1 : T1.m_trigger = trig := by
      have hmem : T1 ∈ (m.transitionsFor m.m_currentState).filter
          (fun t => t.m_trigger = trig) := by
        rw [h]; exact List.mem_cons_self _ _
      exact of_decide_eq_true (List.mem_filter.mp hmem).2
    have hloop : executeLoop trig m.m_currentState
        (m.transitionsFor m.m_currentState) =
        (true, T1.m_destinationState, T1.fireEvents) := by
      rw [executeLoop_filter, h]
      simp [executeLoop, if_pos hT1.symm]
    show (_, { m with m_currentState := _ }, _) = _
    rw [hloop]
  · intro m₂ trig₂
    exact executeLoop_counts trig₂ m₂.m_currentState
      (m₂.transitionsFor m₂.m_currentState)

/-- C4 witness: two transitions registered from state `0` with trigger `7`;
the first one fires. -/
theorem FSM.execute_deterministic_first_match_witness :
    ((FSM.mk 0 [⟨0, 1, 7, some 10⟩, ⟨0, 2, 7, some 20⟩] :
        FSM Nat Nat Nat).Execute 7 =
      (true, FSM.mk 1 [⟨0, 1, 7, some 10⟩, ⟨0, 2, 7, some 20⟩],
        [Event.invoke 10, Event.setState 1])) ∧
    ((((FSM.mk 0 [⟨0, 1, 7, some 10⟩, ⟨0, 2, 7, some 20⟩] :
          FSM Nat Nat Nat).Execute 7).2.2.filter Event.isSetState).length ≤ 1 ∧
     (((FSM.mk 0 [⟨0, 1, 7, some 10⟩, ⟨0, 2, 7, some 20⟩] :
          FSM Nat Nat Nat).Execute 7).2.2.filter Event.isInvoke).length ≤ 1) :=
  have h := FSM.execute_deterministic_first_match
    (FSM.mk 0 [⟨0, 1, 7, some 10⟩, ⟨0, 2, 7, some 20⟩]) 7
    ⟨0, 1, 7, some 10⟩ ⟨0, 2, 7, some 20⟩ (by decide)
  ⟨h.1, h.2 (FSM.mk 0 [⟨0, 1, 7, some 10⟩, ⟨0, 2, 7, some 20⟩]) 7⟩

/-- C5: the worked example of the header — states `{A,B,C} = {0,1,2}`,
triggers `{a,b} = {0,1}`, transitions `[(A→B, a), (B→C, b)]`, initial `A`.
Because the collection constructor leaves `m_currentState` uninitialised,
the freshly constructed machine (indeterminate value `2`, state `C`) fails
the example's first assertion `IsInitial()` and `Execute(a)` fails (first
two conjuncts) — but once the state is forced to `A` via `SetState`, the
rest of the documented sequence holds exactly as specified. -/
theorem FSM.worked_example :
    (FSM.mkFromCollection 2 exampleTransitions).IsInitial 0 = false ∧
    ((FSM.mkFromCollection 2 exampleTransitions).Execute 0).1 = false ∧
    ((FSM.mkFromCollection 2 exampleTransitions).SetState 0).1.IsInitial 0
      = true ∧
    (((FSM.mkFromCollection 2 exampleTransitions).SetState 0).1.Execute 0).1
      = true ∧
    (((FSM.mkFromCollection 2 exampleTransitions).SetState 0).1.Execute
      0).2.1.GetState = 1 ∧
    ((((FSM.mkFromCollection 2 exampleTransitions).SetState 0).1.Execute
      0).2.1.Execute 1).1 = true ∧
    ((((FSM.mkFromCollection 2 exampleTransitions).SetState 0).1.Execute
      0).2.1.Execute 1).2.1.GetState = 2 ∧
    (((((FSM.mkFromCollection 2 exampleTransitions).SetState 0).1.Execute
      0).2.1.Execute 1).2.1.SetState 0).1.IsInitial 0 = true := by
  decide

/-- C6: `SetState(X)` unconditionally overwrites the current state — a
subsequent `GetState()` returns `X` for any machine, whatever the
transition table holds — and its trace contains no action invocation. -/
theorem FSM.setstate_unconditional {State Trigger Action : Type}
    (m : FSM State Trigger Action) (x : State) :
    (m.SetState x).1.GetState = x ∧
    (m.SetState x).2.filter Event.isInvoke = [] :=
  ⟨rfl, rfl⟩

/-- C7: the current state only changes through a successful `Execute` or an
explicit `SetState`: `AddTransitions` leaves the current state unchanged,
and an `Execute` that returns `false` leaves the whole machine unchanged.
(`GetState` and `IsInitial` are pure observers in this embedding and
cannot mutate anything.) -/
theorem FSM.state_mutation_sources
    {State Trigger Action : Type} [DecidableEq State] [DecidableEq Trigger]
    (m : FSM State Trigger Action)
    (ts : List (FSM.Trans State Trigger Action)) (trig : Trigger) :
    (m.AddTransitions ts).1.GetState = m.GetState ∧
    ((m.Execute trig).1 = false → (m.Execute trig).2.1 = m) :=
  ⟨rfl, fun h => by rw [Execute_false_frame m trig h]⟩

/-- C7 witness: trigger `5` matches nothing, so the machine is unchanged. -/
theorem FSM.state_mutation_sources_witness :
    ((FSM.mk 0 exampleTransitions : FSM Nat Nat Nat).AddTransitions
        exampleTransitions).1.GetState =
      (FSM.mk 0 exampleTransitions : FSM Nat Nat Nat).GetState ∧
    ((FSM.mk 0 exampleTransitions : FSM Nat Nat Nat).Execute 5).2.1 =
      FSM.mk 0 exampleTransitions :=
  ⟨(FSM.state_mutation_sources (FSM.mk 0 exampleTransitions)
      exampleTransitions 5).1,
   (FSM.state_mutation_sources (FSM.mk 0 exampleTransitions)
      exampleTransitions 5).2 (by decide)⟩

/-- C8 counterexample: starting from the default-constructed machine with
initial state `0`, register one transition `0 → 1` and then call
`SetState 5`: the current state is `5`, which is neither the initial state
nor referenced by any registered transition — refuting the claimed
invariant as stated. -/
theorem FSM.setstate_outside_referenced :
    ((FSM.mkEmpty 0 : FSM Nat Nat Nat).run
        [Op.addTransitions [⟨0, 1, 0, none⟩], Op.setState 5]).GetState
      = 5 ∧
    ¬(((FSM.mkEmpty 0 : FSM Nat Nat Nat).run
          [Op.addTransitions [⟨0, 1, 0, none⟩], Op.setState 5]).GetState
        = 0 ∨
      ((FSM.mkEmpty 0 : FSM Nat Nat Nat).run
          [Op.addTransitions [⟨0, 1, 0, none⟩], Op.setState 5]).References
        5) := by
  decide

/-- C8 (amended): after any sequence of `AddTransitions`, `Execute` and
`SetState` operations on a default-constructed FSM, the current state is
the initial state fixed at construction, or a state referenced by at least
one registered transition, or a state that was explicitly installed by
some `SetState` call of the sequence. -/
theorem FSM.current_state_provenance
    {State Trigger Action : Type} [DecidableEq State] [DecidableEq Trigger]
    (initial : State) (ops : List (Op State Trigger Action)) :
    ((FSM.mkEmpty initial).run ops).GetState = initial ∨
    ((FSM.mkEmpty initial).run ops).References
      ((FSM.mkEmpty initial).run ops).GetState ∨
    Op.setState ((FSM.mkEmpty initial).run ops).GetState ∈ ops :=
  run_state_origin ops (FSM.mkEmpty initial)

/-- C9: `Execute` is a total function in this embedding (it never throws);
its boolean result alone communicates the outcome, returning `true`
exactly when a matching transition exists for the current state — which is
exactly when a transition occurred (a state assignment appears in the
trace). -/
theorem FSM.execute_boolean_outcome
    {State Trigger Action : Type} [DecidableEq State] [DecidableEq Trigger]
    (m : FSM State Trigger Action) (trig : Trigger) :
    ((m.Execute trig).1 = true ↔
      ∃ t ∈ m.transitionsFor m.GetState, t.m_trigger = trig) ∧
    ((m.Execute trig).1 = true ↔
      ∃ e ∈ (m.Execute trig).2.2, e.isSetState = true) :=
  ⟨executeLoop_true_iff trig m.m_currentState
      (m.transitionsFor m.m_currentState),
   executeLoop_setState_iff trig m.m_currentState
      (m.transitionsFor m.m_currentState)⟩

/-- C10: when the first trigger-matching transition of the current state
has an empty action (`none`, the empty `std::function`), `Execute` skips
the invocation entirely — the trace holds no `invoke` event — still moves
to the transition's destination, and returns `true`. -/
theorem FSM.execute_skips_empty_action
    {State Trigger Action : Type} [DecidableEq State] [DecidableEq Trigger]
    (m : FSM State Trigger Action) (trig : Trigger)
    (l₁ l₂ : List (FSM.Trans State Trigger Action))
    (t : FSM.Trans State Trigger Action)
    (h : m.transitionsFor m.m_currentState = l₁ ++ t :: l₂)
    (h₁ : ∀ u ∈ l₁, u.m_trigger ≠ trig) (h₂ : t.m_trigger = trig)
    (h₃ : t.m_action = none) :
    m.Execute trig =
      (true, { m with m_currentState := t.m_destinationState },
        [Event.setState t.m_destinationState]) ∧
    (m.Execute trig).2.1.GetState = t.m_destinationState := by
  have he := Execute_first_match m trig l₁ l₂ t h h₁ h₂
  have hfire : t.fireEvents = [Event.setState t.m_destinationState] := by
    simp [FSM.Trans.fireEvents, h₃]
  rw [he, hfire]
  exact ⟨rfl, rfl⟩

/-- C10 witness: a single action-less transition from state `0` fires
without any invocation event. -/
theorem FSM.execute_skips_empty_action_witness :
    (FSM.mk 0 [⟨0, 1, 0, none⟩] : FSM Nat Nat Nat).Execute 0 =
      (true, FSM.mk 1 [⟨0, 1, 0, none⟩], [Event.setState 1]) ∧
    ((FSM.mk 0 [⟨0, 1, 0, none⟩] : FSM Nat Nat Nat).Execute 0).2.1.GetState
      = 1 :=
  FSM.execute_skips_empty_action (FSM.mk 0 [⟨0, 1, 0, none⟩]) 0
    [] [] ⟨0, 1, 0, none⟩ (by decide) (by decide) (by decide) (by decide)
